import Mathlib

/-!
Verification development for the SecChain questionnaire UI
(`src/private_gpt/ui/ui.py`).

The Python module is embedded shallowly: pure computations become Lean
functions, the mutable fields of the `PrivateGptUi` instance become an
explicit `UiState` record threaded through the handlers, the ingest
service's corpus becomes an explicit list of documents, and Python
exceptions become explicit error values.  External collaborators (the
chat service, PDF text extraction, document creation on ingest) are
taken as function parameters, so every theorem quantifies over their
behaviour.
-/

/-- Python exception kinds that the embedded code can raise. -/
inductive PyErr where
  | keyError
  | nameError
  | typeError
  | jsonError
deriving DecidableEq, Repr

/-- JSON values as produced by the Python stdlib `json.loads` (an external
collaborator).  Numbers are restricted to integers; no claim exercises
fractional numerals. -/
inductive Json where
  | null
  | bool (b : Bool)
  | num (n : Int)
  | str (s : String)
  | arr (xs : List Json)
  | obj (kvs : List (String × Json))

/-- Metadata dictionary of a document, modelled as an association list of
string keys to string values. -/
abbrev Meta := List (String × String)

/-- Python truthiness of a metadata value: `None` and the empty dict are
falsy, a non-empty dict is truthy. -/
def metaTruthy : Option Meta → Bool
  | none => false
  | some m => !m.isEmpty

/-- Python `dict.get(key, default)` on a metadata dictionary. -/
def dictGetD (m : Meta) (k d : String) : String :=
  match m.lookup k with
  | some v => v
  | none => d

/-- A document as listed by the ingest service (`list_ingested`). -/
structure IngestedDoc where
  doc_id : Nat
  doc_metadata : Option Meta
deriving DecidableEq, Repr

/-- A retrieval chunk: text plus a back reference to its document. -/
structure Chunk where
  text : String
  document : IngestedDoc
deriving DecidableEq, Repr

/-- The Source value object of ui.py (pydantic model, frozen, equality by
the full field triple). -/
structure Source where
  file : String
  page : String
  text : String
deriving DecidableEq, Repr

/-- Mutable fields of the `PrivateGptUi` instance that the claims are
about: `self._selected_filename`, `self.questions`, `self.answers`. -/
structure UiState where
  selected_filename : Option String
  questions : Json
  answers : List (Json × List String)

/-- Initial field values set in `PrivateGptUi.__init__` (lines 76-78). -/
def initState : UiState :=
  { selected_filename := none, questions := Json.arr [], answers := [] }

/-- One element of the streaming response: either a plain Python string or
a structured object carrying an incremental `delta` text field. -/
inductive Delta where
  | str (s : String)
  | structured (delta : Option String)

/-- The completion object consumed by `yield_deltas`: a finite stream of
deltas plus an optional list of grounding chunks. -/
structure CompletionGen where
  response : List Delta
  sources : Option (List Chunk)

/-- Python truthiness of the optional chunk list. -/
def sourcesTruthy : Option (List Chunk) → Bool
  | none => false
  | some l => !l.isEmpty

/-- An uploaded file handle; only its name is consulted by the code. -/
structure FileU where
  name : String

/-- The gradio components returned by the delete handlers, reduced to the
data they carry: the refreshed file listing, the `interactive` flags of
the two buttons, and the textbox contents. -/
structure DeleteOutputs where
  listing : List (List String)
  delete_btn_interactive : Bool
  deselect_btn_interactive : Bool
  textbox : String
deriving DecidableEq, Repr

/-! ## First-occurrence deduplication

Python's `list(dict.fromkeys(xs))` (line 53-55) and the `used_files` set
of the citation loop (lines 108-115) both keep, for each key, only the
first element carrying it.  `keepFirstByFrom` is the executable
seen-set formulation; `keepFirstByW` is an equivalent
filter-out-later-duplicates formulation that is convenient in proofs. -/

/-- Keep the first element for each key among elements whose key is not in
`seen`; later elements with an already-seen key are dropped. -/
def keepFirstByFrom {α κ : Type} [DecidableEq κ] (k : α → κ) (seen : List κ) :
    List α → List α
  | [] => []
  | a :: l =>
    if k a ∈ seen then keepFirstByFrom k seen l
    else a :: keepFirstByFrom k (k a :: seen) l

/-- Keep only the first element carrying each key. -/
def keepFirstBy {α κ : Type} [DecidableEq κ] (k : α → κ) (l : List α) : List α :=
  keepFirstByFrom k [] l

/-- Proof-side formulation of first-occurrence dedup: keep the head,
filter all later elements with the same key, recurse. -/
def keepFirstByW {α κ : Type} [DecidableEq κ] (k : α → κ) : List α → List α
  | [] => []
  | a :: l => a :: keepFirstByW k (l.filter (fun x => k x ≠ k a))
termination_by l => l.length
decreasing_by
  simp only [List.length_cons]
  exact Nat.lt_succ_of_le (List.length_filter_le _ l)

/-! ## SourceCurator (`Source.curate_sources`, lines 41-57) -/

/-- Build one Source from a chunk (lines 46-51): file and page default to
a dash when the metadata dict is falsy or lacks the key. -/
def chunkSource (c : Chunk) : Source :=
  match c.document.doc_metadata with
  | none => { file := "-", page := "-", text := c.text }
  | some m =>
    if m.isEmpty then { file := "-", page := "-", text := c.text }
    else
      { file := dictGetD m "file_name" "-", page := dictGetD m "page_label" "-",
        text := c.text }

/-- Embedding of `Source.curate_sources`: append each new Source, then
re-deduplicate the accumulated list with `dict.fromkeys` (keeping first
occurrences, equality being the full triple). -/
def Source.curate_sources (sources : List Chunk) : List Source :=
  sources.foldl (fun acc chunk => keepFirstBy id (acc ++ [chunkSource chunk])) []

/-! ## StreamingResponseAggregator (`yield_deltas`, lines 93-117) -/

/-- Separator inserted before the citation block (line 31). -/
def SOURCES_SEPARATOR : String := "\n\n Sources: \n"

/-- Streaming phase of `yield_deltas` (lines 96-102): for each delta,
extend the running concatenation and yield it.  A structured delta
reaches the branch `elif isinstance(delta, ChatResponse)`; the name
`ChatResponse` is never imported by ui.py, so evaluating the branch
raises `NameError` before anything is yielded for that delta.  Returns
the yielded elements, the final concatenation, and the error if any. -/
def streamLoop (full : String) : List Delta → List String × String × Option PyErr
  | [] => ([], full, none)
  | Delta.str s :: rest =>
    match streamLoop (full ++ s) rest with
    | (ys, fin, e) => ((full ++ s) :: ys, fin, e)
  | Delta.structured _ :: _ => ([], full, some PyErr.nameError)

/-- Citation-line format of line 113 (note the trailing space and the
blank line that follow each entry). -/
def citationLine (p : Nat × Source) : String :=
  toString p.1 ++ ". " ++ p.2.file ++ " (page " ++ p.2.page ++ ") \n\n"

/-- Key used by the `used_files` set (line 110). -/
def citationKey (s : Source) : String := s.file ++ "-" ++ s.page

/-- The citation loop of lines 108-115: enumerate the curated sources from
1, emit a line for each (file, page) key not yet seen. -/
def sourcesLoop : List (Nat × Source) → List String → String → String
  | [], _, text => text
  | p :: rest, used, text =>
    if citationKey p.2 ∈ used then sourcesLoop rest used text
    else sourcesLoop rest (citationKey p.2 :: used) (text ++ citationLine p)

/-- The `sources_text` block built at lines 107-115 from the curated
sources. -/
def sourcesText (cur : List Source) : String :=
  sourcesLoop (List.enumFrom 1 cur) [] "\n\n\n"

/-- Embedding of `PrivateGptUi.yield_deltas` (lines 93-117).  Returns the
list of yielded elements and the error, if one was raised.  Note that
the final `yield full_response` at line 117 is outside the `if` of line
104, so it runs whenever the stream ends without error, even when the
chunk list is empty or absent. -/
def yield_deltas (g : CompletionGen) : List String × Option PyErr :=
  match streamLoop "" g.response with
  | (ys, _, some e) => (ys, some e)
  | (ys, full, none) =>
    if sourcesTruthy g.sources then
      (ys ++ [full ++ SOURCES_SEPARATOR ++
        sourcesText (Source.curate_sources (g.sources.getD []))], none)
    else
      (ys ++ [full], none)

/-! ## Python `json.loads` (external stdlib collaborator)

A recursive-descent parser for the JSON grammar, faithful to `json.loads`
on the fragment the claims exercise: values of every JSON kind, strict
rejection of malformed input and of trailing data, leading-zero and
control-character rejection.  Numerals are restricted to integers (a
fractional part or exponent is rejected rather than parsed as a float). -/

/-- JSON whitespace. -/
def isJsonWs (c : Char) : Bool :=
  c == ' ' || c == '\t' || c == '\n' || c == '\r'

/-- Skip leading whitespace. -/
def skipWs (cs : List Char) : List Char := cs.dropWhile isJsonWs

/-- Single-character string escapes, as a lookup table from the escape
letter to the decoded character. -/
def escChar (e : Char) : Option Char :=
  List.lookup e
    [('"', '"'), ('\\', '\\'), ('/', '/'), ('n', '\n'), ('t', '\t'),
     ('r', '\r'), ('b', Char.ofNat 8), ('f', Char.ofNat 12)]

/-- Value of a hexadecimal digit. -/
def hexVal (c : Char) : Option Nat :=
  if c.isDigit then some (c.toNat - '0'.toNat)
  else if 'a' ≤ c ∧ c ≤ 'f' then some (c.toNat - 'a'.toNat + 10)
  else if 'A' ≤ c ∧ c ≤ 'F' then some (c.toNat - 'A'.toNat + 10)
  else none

/-- Parse the body of a JSON string after the opening quote, returning the
decoded characters and the input after the closing quote.  Raw control
characters are rejected as by strict `json.loads`. -/
def parseStringBody : List Char → Except PyErr (List Char × List Char)
  | [] => .error .jsonError
  | '"' :: rest => .ok ([], rest)
  | '\\' :: 'u' :: h1 :: h2 :: h3 :: h4 :: rest =>
    match hexVal h1, hexVal h2, hexVal h3, hexVal h4 with
    | some a, some b, some c, some d =>
      (parseStringBody rest).map
        (fun p => (Char.ofNat (((a * 16 + b) * 16 + c) * 16 + d) :: p.1, p.2))
    | _, _, _, _ => .error .jsonError
  | '\\' :: e :: rest =>
    match escChar e with
    | some c => (parseStringBody rest).map (fun p => (c :: p.1, p.2))
    | none => .error .jsonError
  | c :: rest =>
    if c.toNat < 32 then .error .jsonError
    else (parseStringBody rest).map (fun p => (c :: p.1, p.2))

/-- Numeric value of a digit run. -/
def digitsVal (ds : List Char) : Nat :=
  ds.foldl (fun n c => n * 10 + (c.toNat - '0'.toNat)) 0

/-- Parse a nonnegative JSON integer: a nonempty digit run without a
leading zero (unless it is exactly zero) and without a fractional part or
exponent. -/
def parseNat (cs : List Char) : Except PyErr (Nat × List Char) :=
  match cs.takeWhile Char.isDigit, cs.dropWhile Char.isDigit with
  | [], _ => .error .jsonError
  | ds, rest =>
    if ds.length > 1 && ds.headD '0' == '0' then .error .jsonError
    else
      match rest with
      | '.' :: _ => .error .jsonError
      | 'e' :: _ => .error .jsonError
      | 'E' :: _ => .error .jsonError
      | _ => .ok (digitsVal ds, rest)

mutual

/-- Parse one JSON value, returning it and the remaining input. -/
def parseValue : Nat → List Char → Except PyErr (Json × List Char)
  | 0, _ => .error .jsonError
  | Nat.succ fuel, cs =>
    match skipWs cs with
    | 'n' :: 'u' :: 'l' :: 'l' :: rest => .ok (.null, rest)
    | 't' :: 'r' :: 'u' :: 'e' :: rest => .ok (.bool true, rest)
    | 'f' :: 'a' :: 'l' :: 's' :: 'e' :: rest => .ok (.bool false, rest)
    | '"' :: rest =>
      (parseStringBody rest).map (fun p => (.str (String.mk p.1), p.2))
    | '[' :: rest =>
      match skipWs rest with
      | ']' :: rest' => .ok (.arr [], rest')
      | rest' =>
        match parseArrayItems fuel rest' with
        | .ok (xs, rest'') => .ok (.arr xs, rest'')
        | .error e => .error e
    | '{' :: rest =>
      match skipWs rest with
      | '}' :: rest' => .ok (.obj [], rest')
      | rest' =>
        match parseObjItems fuel rest' with
        | .ok (kvs, rest'') => .ok (.obj kvs, rest'')
        | .error e => .error e
    | '-' :: rest =>
      match parseNat rest with
      | .ok (n, rest') => .ok (.num (-(n : Int)), rest')
      | .error e => .error e
    | c :: rest =>
      if c.isDigit then
        match parseNat (c :: rest) with
        | .ok (n, rest') => .ok (.num (n : Int), rest')
        | .error e => .error e
      else .error .jsonError
    | [] => .error .jsonError

/-- Parse the comma-separated items of a nonempty array, up to and
including the closing bracket. -/
def parseArrayItems : Nat → List Char → Except PyErr (List Json × List Char)
  | 0, _ => .error .jsonError
  | Nat.succ fuel, cs =>
    match parseValue fuel cs with
    | .error e => .error e
    | .ok (v, rest) =>
      match skipWs rest with
      | ',' :: rest' =>
        match parseArrayItems fuel rest' with
        | .ok (xs, rest'') => .ok (v :: xs, rest'')
        | .error e => .error e
      | ']' :: rest' => .ok ([v], rest')
      | _ => .error .jsonError

/-- Parse the members of a nonempty object, up to and including the
closing brace. -/
def parseObjItems : Nat → List Char → Except PyErr (List (String × Json) × List Char)
  | 0, _ => .error .jsonError
  | Nat.succ fuel, cs =>
    match skipWs cs with
    | '"' :: rest =>
      match parseStringBody rest with
      | .error e => .error e
      | .ok (keyChars, rest') =>
        match skipWs rest' with
        | ':' :: rest'' =>
          match parseValue fuel rest'' with
          | .error e => .error e
          | .ok (v, rest3) =>
            match skipWs rest3 with
            | ',' :: rest4 =>
              match parseObjItems fuel rest4 with
              | .ok (kvs, rest5) => .ok ((String.mk keyChars, v) :: kvs, rest5)
              | .error e => .error e
            | '}' :: rest4 => .ok ([(String.mk keyChars, v)], rest4)
            | _ => .error .jsonError
        | _ => .error .jsonError
    | _ => .error .jsonError

end

/-- Model of Python `json.loads`: parse one JSON value; anything left over
beyond trailing whitespace is an error, as is malformed input. -/
def json_loads (s : String) : Except PyErr Json :=
  match parseValue (2 * s.length + 2) s.data with
  | .error e => .error e
  | .ok (v, rest) =>
    if (skipWs rest).isEmpty then .ok v else .error .jsonError

/-! ## QuestionExtractor (`_extract_questions`, lines 119-131) -/

/-- Embedding of `_extract_questions`: the chat call is the external
collaborator `completionOf` (mapping the questionnaire text to the
textual generation result); its result is handed to `json.loads`
unchecked, so the returned value is whatever JSON the model produced. -/
def extract_questions (completionOf : String → String) (text : String) :
    Except PyErr Json :=
  json_loads (completionOf text)

/-! ## Python value rendering and iteration helpers -/

mutual

/-- Python `str`/`repr` of a JSON value, as used by the f-string of line
177 (only string questions are rendered by any claim). -/
def pyStr : Json → String
  | .str s => s
  | .num n => toString n
  | .bool b => if b then "True" else "False"
  | .null => "None"
  | .arr xs => "[" ++ pyStrList xs ++ "]"
  | .obj kvs => "\x7b" ++ pyStrObj kvs ++ "\x7d"

/-- Comma-separated rendering of list elements. -/
def pyStrList : List Json → String
  | [] => ""
  | [x] => pyStr x
  | x :: xs => pyStr x ++ ", " ++ pyStrList xs

/-- Comma-separated rendering of object members. -/
def pyStrObj : List (String × Json) → String
  | [] => ""
  | [kv] => kv.1 ++ ": " ++ pyStr kv.2
  | kv :: kvs => kv.1 ++ ": " ++ pyStr kv.2 ++ ", " ++ pyStrObj kvs

end

/-- Python iteration over a value (`for x in v`): lists yield their items,
strings their characters, dicts their keys; other values raise
`TypeError`. -/
def pyIter : Json → Except PyErr (List Json)
  | .arr xs => .ok xs
  | .str s => .ok (s.data.map (fun c => Json.str (String.mk [c])))
  | .obj kvs => .ok (kvs.map (fun kv => Json.str kv.1))
  | _ => .error .typeError

/-- All elements of a list of JSON values, if every one is a string. -/
def allStrings : List Json → Option (List String)
  | [] => some []
  | .str s :: xs => (allStrings xs).map (fun ss => s :: ss)
  | _ => none

/-- Python `sep.join(v)`: requires an iterable of strings; a string
iterates as its characters and a dict as its keys. -/
def pyJoinSep (sep : String) : Json → Except PyErr String
  | .arr xs =>
    match allStrings xs with
    | some ss => .ok (String.intercalate sep ss)
    | none => .error .typeError
  | .str s => .ok (String.intercalate sep (s.data.map (fun c => String.mk [c])))
  | .obj kvs => .ok (String.intercalate sep (kvs.map (fun kv => kv.1)))
  | _ => .error .typeError

/-- Python `''.join(strs)`. -/
def strConcat : List String → String
  | [] => ""
  | s :: l => s ++ strConcat l

/-! ## Questionnaire pipeline (`_process_upload`, `_answer_questionnaire`) -/

/-- Python `s.endswith(suffix)`: the reversed suffix is a leading segment
of the reversed string. -/
def pyEndsWith (s suffix : String) : Bool :=
  List.isPrefixOf suffix.data.reverse s.data.reverse

/-- Embedding of `_parse_pdf` (lines 80-91): the PyPDF2 extraction is the
external collaborator `pdfText`; a non-PDF or absent file yields the
fixed message string instead of raising. -/
def parse_pdf (pdfText : String → String) (file : Option FileU) : String :=
  match file with
  | none => "Please only upload PDF files."
  | some f =>
    if !(pyEndsWith f.name ".pdf") then "Please only upload PDF files."
    else pdfText f.name

/-- Embedding of `_process_upload` (lines 159-170): reject non-PDF names
with a message, otherwise extract text, parse the generation result as
JSON into `self.questions`, and return the newline-join of the parsed
value.  Note that `self.answers` is never touched here. -/
def process_upload (completionOf : String → String) (pdfText : String → String)
    (file : FileU) (st : UiState) : Except PyErr String × UiState :=
  if !(pyEndsWith file.name ".pdf") then (.ok "Please only upload PDF files.", st)
  else
    match extract_questions completionOf (parse_pdf pdfText (some file)) with
    | .error e => (.error e, st)
    | .ok qs =>
      match pyJoinSep "\n" qs with
      | .error e => (.error e, { st with questions := qs })
      | .ok out => (.ok out, { st with questions := qs })

/-- Answer rendering of line 177 for one transcript entry. -/
def renderPair (p : Json × List String) : String :=
  "Q: " ++ pyStr p.1 ++ "\nA: " ++ strConcat p.2 ++ "\n\n"

/-- The loop of `_answer_questionnaire` (lines 174-176): one generation
call per question via the external collaborator `answerOf` (the
materialised `list(self._answer_question(q))`), appending each
(question, answer) pair as it is produced; a failing call aborts the
loop, keeping the pairs appended so far. -/
def answerLoop (answerOf : Json → Except PyErr (List String)) :
    List Json → List (Json × List String) →
    List (Json × List String) × Option PyErr
  | [], acc => (acc, none)
  | q :: rest, acc =>
    match answerOf q with
    | .error e => (acc, some e)
    | .ok a => answerLoop answerOf rest (acc ++ [(q, a)])

/-- Embedding of `_answer_questionnaire` (lines 172-177): reset
`self.answers` to empty, iterate over `self.questions` answering each
question in order, and on success return the newline-joined rendering. -/
def answer_questionnaire (answerOf : Json → Except PyErr (List String))
    (st : UiState) : Except PyErr String × UiState :=
  match pyIter st.questions with
  | .error e => (.error e, { st with answers := [] })
  | .ok qs =>
    match answerLoop answerOf qs [] with
    | (acc, some e) => (.error e, { st with answers := acc })
    | (acc, none) =>
      (.ok (String.intercalate "\n" (acc.map renderPair)),
       { st with answers := acc })

/-! ## DocumentCorpusManager (`_list_ingested_files`, `_upload_file`,
`_delete_selected_file`, `_delete_all_files`, lines 189-259)

The ingest service's corpus is an explicit list of documents; `delete`
removes every document with the given id, `bulk_ingest` is the external
collaborator `newDocs`.  Each handler also reports the delete calls it
issued, so that the theorems can speak about side effects performed
before an exception. -/

/-- Embedding of `_list_ingested_files` (lines 189-199): skip documents
without metadata, collect file names (with the placeholder for a missing
key) into a set, and wrap each name in a singleton row.  The Python set
is modelled as a first-insertion-order deduplicated list; only
membership in the result is meaningful, since set iteration order is
unspecified. -/
def list_ingested_files (corpus : List IngestedDoc) : List (List String) :=
  (keepFirstBy id (corpus.filterMap (fun d =>
    match d.doc_metadata with
    | none => none
    | some m => some (dictGetD m "file_name" "[FILE NAME MISSING]")))).map
    (fun f => [f])

/-- The replace scan of `_upload_file` (lines 208-214): collect the ids of
documents whose truthy metadata maps `file_name` to one of the incoming
names; a truthy metadata dict without the key raises `KeyError`. -/
def uploadScan (file_names : List String) :
    List IngestedDoc → Except PyErr (List Nat)
  | [] => .ok []
  | d :: rest =>
    match d.doc_metadata with
    | none => uploadScan file_names rest
    | some m =>
      if m.isEmpty then uploadScan file_names rest
      else
        match m.lookup "file_name" with
        | none => .error .keyError
        | some v =>
          if v ∈ file_names then
            match uploadScan file_names rest with
            | .ok ids => .ok (d.doc_id :: ids)
            | .error e => .error e
          else uploadScan file_names rest

/-- Outcome of a corpus-mutating handler: the corpus afterwards, the
delete calls issued to the ingest service (in order), the ingest calls
issued, and the error if one was raised mid-way. -/
structure CorpusOutcome where
  corpus : List IngestedDoc
  deleteCalls : List Nat
  ingestCalls : List String
  err : Option PyErr
deriving DecidableEq, Repr

/-- Embedding of `_upload_file` (lines 201-223): scan, then delete the
collected ids, then bulk-ingest the incoming files.  If the scan raises,
no delete or ingest call has been made yet. -/
def upload_file (newDocs : List String → List IngestedDoc)
    (files : List String) (corpus : List IngestedDoc) : CorpusOutcome :=
  match uploadScan files corpus with
  | .error e =>
    { corpus := corpus, deleteCalls := [], ingestCalls := [], err := some e }
  | .ok ids =>
    { corpus := ids.foldl (fun c i => c.filter (fun x => x.doc_id ≠ i)) corpus
        ++ newDocs files,
      deleteCalls := ids, ingestCalls := files, err := none }

/-- The loop of `_delete_selected_file` (lines 239-245) over a snapshot of
the corpus: delete every document whose truthy metadata maps `file_name`
to the selection; a truthy metadata dict without the key raises
`KeyError`, aborting the loop with the deletions made so far. -/
def delSelLoop (sel : Option String) :
    List IngestedDoc → List IngestedDoc → List Nat →
    List IngestedDoc × List Nat × Option PyErr
  | [], corpus, calls => (corpus, calls, none)
  | d :: rest, corpus, calls =>
    match d.doc_metadata with
    | none => delSelLoop sel rest corpus calls
    | some m =>
      if m.isEmpty then delSelLoop sel rest corpus calls
      else
        match m.lookup "file_name" with
        | none => (corpus, calls, some .keyError)
        | some v =>
          if some v = sel then
            delSelLoop sel rest (corpus.filter (fun x => x.doc_id ≠ d.doc_id))
              (calls ++ [d.doc_id])
          else delSelLoop sel rest corpus calls

/-- Embedding of `_delete_selected_file` (lines 237-251).  The handler
reads `self._selected_filename` but never assigns any instance field, so
the state passes through unchanged; the gradio outputs (returned only
when no exception was raised) reset the displayed selection. -/
def delete_selected_file (st : UiState) (corpus : List IngestedDoc) :
    (CorpusOutcome × Option DeleteOutputs) × UiState :=
  match delSelLoop st.selected_filename corpus corpus [] with
  | (c', calls, some e) =>
    (({ corpus := c', deleteCalls := calls, ingestCalls := [], err := some e },
      none), st)
  | (c', calls, none) =>
    (({ corpus := c', deleteCalls := calls, ingestCalls := [], err := none },
      some { listing := list_ingested_files c', delete_btn_interactive := false,
             deselect_btn_interactive := false, textbox := "All files" }), st)

/-- Embedding of `_delete_all_files` (lines 225-235): delete every
document of the listed snapshot by id; no instance field is assigned. -/
def delete_all_files (st : UiState) (corpus : List IngestedDoc) :
    (CorpusOutcome × DeleteOutputs) × UiState :=
  (({ corpus := corpus.foldl
        (fun c d => c.filter (fun x => x.doc_id ≠ d.doc_id)) corpus,
      deleteCalls := corpus.map (fun d => d.doc_id), ingestCalls := [],
      err := none },
    { listing := list_ingested_files
        (corpus.foldl (fun c d => c.filter (fun x => x.doc_id ≠ d.doc_id))
          corpus),
      delete_btn_interactive := false, deselect_btn_interactive := false,
      textbox := "All files" }), st)

/-- Embedding of `_deselect_selected_file` (lines 253-259): the only
handler that clears `self._selected_filename`. -/
def deselect_selected_file (st : UiState) :
    (Bool × Bool × String) × UiState :=
  ((false, false, "All files"), { st with selected_filename := none })

/-! ## Derived notions used in the theorem statements -/

/-- The sequence of running concatenations yielded during the streaming
phase: one prefix of the full response per delta. -/
def prefixList (full : String) : List String → List String
  | [] => []
  | s :: rest => (full ++ s) :: prefixList (full ++ s) rest

/-- Whether `_delete_selected_file` would delete this document: truthy
metadata whose `file_name` value equals the selection.  (Python compares
a string against `None` as unequal.) -/
def selMatches (sel : Option String) (d : IngestedDoc) : Bool :=
  match d.doc_metadata with
  | none => false
  | some m =>
    if m.isEmpty then false
    else
      match m.lookup "file_name" with
      | none => false
      | some v => some v = sel

/-- A document that `_delete_selected_file` and `_upload_file` raise on:
truthy metadata without a `file_name` key. -/
def raisesKeyError (d : IngestedDoc) : Bool :=
  match d.doc_metadata with
  | none => false
  | some m =>
    if m.isEmpty then false
    else (m.lookup "file_name").isNone

/-! ## Concrete inputs used by witnesses and counterexamples -/

/-- Answer oracle that succeeds on the first question and fails on any
other input. -/
def ansOfC1 : Json → Except PyErr (List String)
  | .str "q1" => .ok ["a1"]
  | _ => .error .typeError

/-- Session state with two pending questions and an empty transcript. -/
def stC1 : UiState :=
  { selected_filename := none,
    questions := Json.arr [Json.str "q1", Json.str "q2"], answers := [] }

/-- Session state holding a transcript from an earlier answering run. -/
def stC3 : UiState :=
  { selected_filename := none, questions := Json.arr [],
    answers := [(Json.str "q", ["a"])] }

/-- Session state with a live selection. -/
def stC4 : UiState :=
  { selected_filename := some "f", questions := Json.arr [], answers := [] }

/-- Generation collaborator returning a fixed one-question JSON array. -/
def cOfC3 : String → String := fun _ => "[\"x?\"]"

/-- Text-extraction collaborator returning fixed text. -/
def pdfOfC3 : String → String := fun _ => "text"

/-- An uploaded questionnaire file with a PDF name. -/
def fileC3 : FileU := { name := "f.pdf" }

/-- Chunks sharing one (file, page) pair with two distinct texts, plus a
chunk from another file. -/
def chunkC6a : Chunk :=
  { text := "t1",
    document :=
      { doc_id := 1,
        doc_metadata := some [("file_name", "f"), ("page_label", "p")] } }

/-- Second chunk of the same file and page but different text. -/
def chunkC6b : Chunk :=
  { text := "t2",
    document :=
      { doc_id := 1,
        doc_metadata := some [("file_name", "f"), ("page_label", "p")] } }

/-- Chunk of a different file. -/
def chunkC6c : Chunk :=
  { text := "t3",
    document :=
      { doc_id := 2,
        doc_metadata := some [("file_name", "g"), ("page_label", "q")] } }

/-- A document whose metadata is well formed. -/
def docGood : IngestedDoc :=
  { doc_id := 3, doc_metadata := some [("file_name", "f")] }

/-- A document whose metadata is non-empty but lacks `file_name`. -/
def docBad : IngestedDoc :=
  { doc_id := 7, doc_metadata := some [("page_label", "1")] }

/-- Session state used by the C10 witness. -/
def stC10 : UiState :=
  { selected_filename := some "f", questions := Json.arr [], answers := [] }

/-! ## Lemmas: first-occurrence deduplication -/

theorem keepFirstByW_nil {α κ : Type} [DecidableEq κ] (k : α → κ) :
    keepFirstByW k [] = [] := by
  rw [keepFirstByW]

theorem keepFirstByW_cons {α κ : Type} [DecidableEq κ] (k : α → κ) (a : α)
    (l : List α) :
    keepFirstByW k (a :: l) =
      a :: keepFirstByW k (l.filter (fun x => k x ≠ k a)) := by
  rw [keepFirstByW]

theorem keepFirstByFrom_eq_W {α κ : Type} [DecidableEq κ] (k : α → κ)
    (l : List α) : ∀ seen : List κ,
    keepFirstByFrom k seen l = keepFirstByW k (l.filter (fun x => k x ∉ seen)) := by
  induction l with
  | nil => intro seen; simp [keepFirstByFrom, keepFirstByW_nil]
  | cons a l ih =>
    intro seen
    rw [List.filter_cons]
    by_cases h : k a ∈ seen
    · rw [keepFirstByFrom, if_pos h, ih seen]
      simp [h]
    · rw [keepFirstByFrom, if_neg h, ih (k a :: seen)]
      simp only [h, not_false_iff, decide_True, if_pos, keepFirstByW_cons]
      have hf : List.filter (fun x => decide (k x ∉ k a :: seen)) l =
          List.filter (fun x => decide (k x ≠ k a) && decide (k x ∉ seen)) l := by
        apply List.filter_congr
        intro x _
        by_cases h1 : k x = k a <;> by_cases h2 : k x ∈ seen <;>
          simp [h1, h2, List.mem_cons]
      rw [hf, ← List.filter_filter]

theorem keepFirstBy_eq_W {α κ : Type} [DecidableEq κ] (k : α → κ) (l : List α) :
    keepFirstBy k l = keepFirstByW k l := by
  rw [keepFirstBy, keepFirstByFrom_eq_W]
  congr 1
  apply List.filter_eq_self.mpr
  intro x _
  simp

theorem keepFirstByW_sublist {α κ : Type} [DecidableEq κ] (k : α → κ)
    (l : List α) : (keepFirstByW k l).Sublist l := by
  induction l using keepFirstByW.induct k with
  | case1 => simp [keepFirstByW_nil]
  | case2 a l ih =>
    rw [keepFirstByW_cons]
    exact (ih.trans (List.filter_sublist l)).cons₂ a

theorem mem_of_mem_keepFirstByW {α κ : Type} [DecidableEq κ] {k : α → κ}
    {l : List α} {x : α} (h : x ∈ keepFirstByW k l) : x ∈ l :=
  (keepFirstByW_sublist k l).subset h

theorem keys_keepFirstByW {α κ : Type} [DecidableEq κ] (k : α → κ)
    (l : List α) : ∀ x ∈ l, ∃ y ∈ keepFirstByW k l, k y = k x := by
  induction l using keepFirstByW.induct k with
  | case1 => simp
  | case2 a l ih =>
    intro x hx
    rw [keepFirstByW_cons]
    rcases List.mem_cons.mp hx with rfl | hx'
    · exact ⟨x, List.mem_cons_self _ _, rfl⟩
    · by_cases hk : k x = k a
      · exact ⟨a, List.mem_cons_self _ _, hk.symm⟩
      · obtain ⟨y, hy, hky⟩ := ih x (List.mem_filter.mpr ⟨hx', by simpa using hk⟩)
        exact ⟨y, List.mem_cons_of_mem _ hy, hky⟩

theorem nodup_map_keepFirstByW {α κ : Type} [DecidableEq κ] (k : α → κ)
    (l : List α) : ((keepFirstByW k l).map k).Nodup := by
  induction l using keepFirstByW.induct k with
  | case1 => simp [keepFirstByW_nil]
  | case2 a l ih =>
    rw [keepFirstByW_cons, List.map_cons]
    refine List.nodup_cons.mpr ⟨?_, ih⟩
    intro hmem
    obtain ⟨y, hy, hky⟩ := List.mem_map.mp hmem
    have hy' := mem_of_mem_keepFirstByW hy
    have hne := List.of_mem_filter hy'
    simp only [decide_not, Bool.not_eq_true', decide_eq_false_iff_not] at hne
    exact hne hky

theorem length_keepFirstByW {α κ : Type} [DecidableEq κ] (k : α → κ)
    (l : List α) : (keepFirstByW k l).length = (l.map k).toFinset.card := by
  induction l using keepFirstByW.induct k with
  | case1 => simp [keepFirstByW_nil]
  | case2 a l ih =>
    rw [keepFirstByW_cons, List.length_cons, ih, List.map_cons,
      List.toFinset_cons]
    have h1 : (l.filter (fun x => k x ≠ k a)).map k =
        (l.map k).filter (fun b => b ≠ k a) := by
      rw [List.filter_map]
      rfl
    have h2 : ((l.map k).filter (fun b => b ≠ k a)).toFinset =
        (l.map k).toFinset.erase (k a) := by
      ext x
      simp only [List.mem_toFinset, List.mem_filter, Finset.mem_erase,
        decide_not, Bool.not_eq_true', decide_eq_false_iff_not]
      tauto
    have h3 : insert (k a) (l.map k).toFinset =
        insert (k a) ((l.map k).toFinset.erase (k a)) := by
      ext x
      simp only [Finset.mem_insert, Finset.mem_erase]
      tauto
    rw [h1, h2, h3, Finset.card_insert_of_not_mem (Finset.not_mem_erase _ _)]

theorem indexOf_lt_of_filter_lt {α : Type} [DecidableEq α] :
    ∀ (l : List α) (p : α → Bool) (a b : α), a ∈ l.filter p → b ∈ l.filter p →
      (l.filter p).indexOf a < (l.filter p).indexOf b →
      l.indexOf a < l.indexOf b := by
  intro l
  induction l with
  | nil => simp
  | cons c t ih =>
    intro p a b ha hb hlt
    by_cases hpc : p c = true
    · rw [List.filter_cons_of_pos hpc] at ha hb hlt
      by_cases hac : a = c
      · subst hac
        have hba : b ≠ a := by
          intro hba
          subst hba
          exact absurd hlt (lt_irrefl _)
        rw [List.indexOf_cons_self, List.indexOf_cons_ne t (fun h => hba h.symm)]
        exact Nat.succ_pos _
      · by_cases hbc : b = c
        · subst hbc
          rw [List.indexOf_cons_self] at hlt
          exact absurd hlt (Nat.not_lt_zero _)
        · have ha' : a ∈ t.filter p := by
            rcases List.mem_cons.mp ha with h | h
            · exact absurd h hac
            · exact h
          have hb' : b ∈ t.filter p := by
            rcases List.mem_cons.mp hb with h | h
            · exact absurd h hbc
            · exact h
          rw [List.indexOf_cons_ne _ (fun h => hac h.symm),
            List.indexOf_cons_ne _ (fun h => hbc h.symm)] at hlt
          rw [List.indexOf_cons_ne t (fun h => hac h.symm),
            List.indexOf_cons_ne t (fun h => hbc h.symm)]
          exact Nat.succ_lt_succ (ih p a b ha' hb' (Nat.lt_of_succ_lt_succ hlt))
    · rw [List.filter_cons_of_neg hpc] at ha hb hlt
      have hac : a ≠ c := by
        intro h
        subst h
        exact hpc (List.of_mem_filter ha)
      have hbc : b ≠ c := by
        intro h
        subst h
        exact hpc (List.of_mem_filter hb)
      rw [List.indexOf_cons_ne t (fun h => hac h.symm),
        List.indexOf_cons_ne t (fun h => hbc h.symm)]
      exact Nat.succ_lt_succ (ih p a b ha hb hlt)

theorem pairwise_indexOf_keepFirstByW {α κ : Type} [DecidableEq α]
    [DecidableEq κ] (k : α → κ) (l : List α) :
    (keepFirstByW k l).Pairwise (fun a b => l.indexOf a < l.indexOf b) := by
  induction l using keepFirstByW.induct k with
  | case1 => simp [keepFirstByW_nil]
  | case2 a l ih =>
    rw [keepFirstByW_cons]
    refine List.pairwise_cons.mpr ⟨?_, ?_⟩
    · intro b hb
      have hbf := mem_of_mem_keepFirstByW hb
      have hkb := List.of_mem_filter hbf
      simp only [decide_not, Bool.not_eq_true', decide_eq_false_iff_not] at hkb
      have hba : a ≠ b := fun h => hkb (by rw [h])
      rw [List.indexOf_cons_self, List.indexOf_cons_ne l hba]
      exact Nat.succ_pos _
    · refine List.Pairwise.imp_of_mem ?_ ih
      intro x y hx hy hlt
      have hx' := mem_of_mem_keepFirstByW hx
      have hy' := mem_of_mem_keepFirstByW hy
      have hkx := List.of_mem_filter hx'
      have hky := List.of_mem_filter hy'
      simp only [decide_not, Bool.not_eq_true', decide_eq_false_iff_not]
        at hkx hky
      have hxa : a ≠ x := fun h => hkx (by rw [h])
      have hya : a ≠ y := fun h => hky (by rw [h])
      rw [List.indexOf_cons_ne l hxa, List.indexOf_cons_ne l hya]
      exact Nat.succ_lt_succ
        (indexOf_lt_of_filter_lt l _ x y hx' hy' hlt)

theorem filter_keepFirstByW {α κ : Type} [DecidableEq κ] (k : α → κ)
    (q : κ → Bool) (l : List α) :
    (keepFirstByW k l).filter (fun x => q (k x)) =
      keepFirstByW k (l.filter (fun x => q (k x))) := by
  induction l using keepFirstByW.induct k with
  | case1 => simp [keepFirstByW_nil]
  | case2 a l ih =>
    rw [keepFirstByW_cons]
    by_cases hqa : q (k a) = true
    · have hstep : ∀ L : List α, (a :: L).filter (fun x => q (k x)) =
          a :: L.filter (fun x => q (k x)) := by
        intro L
        simp [List.filter_cons, hqa]
      rw [hstep (keepFirstByW k (l.filter (fun x => k x ≠ k a))), ih, hstep l,
        keepFirstByW_cons]
      congr 1
      rw [List.filter_filter, List.filter_filter]
      congr 1
      apply List.filter_congr
      intro x _
      rw [Bool.and_comm]
    · have hstep : ∀ L : List α, (a :: L).filter (fun x => q (k x)) =
          L.filter (fun x => q (k x)) := by
        intro L
        simp [List.filter_cons, hqa]
      rw [hstep (keepFirstByW k (l.filter (fun x => k x ≠ k a))), ih, hstep l]
      congr 1
      rw [List.filter_filter]
      apply List.filter_congr
      intro x _
      by_cases hqx : q (k x) = true
      · have hne : decide (k x ≠ k a) = true := by
          simp only [decide_not, Bool.not_eq_true', decide_eq_false_iff_not]
          intro h
          rw [h] at hqx
          exact hqa hqx
        simp [hqx, hne]
      · simp only [Bool.not_eq_true] at hqx
        simp [hqx]

theorem filter_self_keepKey {α κ : Type} [DecidableEq κ] (k : α → κ) (c : κ)
    (l : List α) :
    (l.filter (fun x => k x ≠ c)).filter (fun x => k x ≠ c) =
      l.filter (fun x => k x ≠ c) := by
  apply List.filter_eq_self.mpr
  intro x hx
  simpa using List.of_mem_filter hx

theorem keepFirstByW_idem_append {α κ : Type} [DecidableEq κ] (k : α → κ)
    (l : List α) : ∀ m : List α,
    keepFirstByW k (keepFirstByW k l ++ m) = keepFirstByW k (l ++ m) := by
  induction l using keepFirstByW.induct k with
  | case1 =>
    intro m
    rw [keepFirstByW_nil]
  | case2 a l ih =>
    intro m
    rw [keepFirstByW_cons, List.cons_append, List.cons_append,
      keepFirstByW_cons, keepFirstByW_cons]
    congr 1
    rw [List.filter_append, filter_keepFirstByW k (fun b => b ≠ k a),
      filter_self_keepKey, ih, ← List.filter_append]

theorem foldl_keepFirstByW {α β κ : Type} [DecidableEq κ] (k : α → κ)
    (f : β → α) (l : List β) : ∀ acc : List α,
    l.foldl (fun acc c => keepFirstByW k (acc ++ [f c])) (keepFirstByW k acc) =
      keepFirstByW k (acc ++ l.map f) := by
  induction l with
  | nil => intro acc; simp
  | cons c l ih =>
    intro acc
    rw [List.foldl_cons, keepFirstByW_idem_append k acc [f c], ih (acc ++ [f c])]
    simp [List.append_assoc]

theorem curate_sources_eq (cs : List Chunk) :
    Source.curate_sources cs = keepFirstByW id (cs.map chunkSource) := by
  have h := foldl_keepFirstByW id chunkSource cs []
  rw [keepFirstByW_nil, List.nil_append] at h
  rw [Source.curate_sources]
  simp only [keepFirstBy_eq_W]
  exact h

theorem toFinset_map_keys_keepFirstByW {α κ : Type} [DecidableEq κ]
    (k : α → κ) (l : List α) :
    ((keepFirstByW k l).map k).toFinset = (l.map k).toFinset := by
  ext x
  simp only [List.mem_toFinset, List.mem_map]
  constructor
  · rintro ⟨y, hy, rfl⟩
    exact ⟨y, mem_of_mem_keepFirstByW hy, rfl⟩
  · rintro ⟨y, hy, rfl⟩
    obtain ⟨z, hz, hkz⟩ := keys_keepFirstByW k l y hy
    exact ⟨z, hz, hkz⟩

/-! ## Lemmas: the streaming aggregator -/

theorem streamLoop_str (ds : List String) : ∀ full : String,
    streamLoop full (ds.map Delta.str) =
      (prefixList full ds, ds.foldl (fun a b => a ++ b) full, none) := by
  induction ds with
  | nil => intro full; rfl
  | cons s ds ih =>
    intro full
    simp [streamLoop, prefixList, ih (full ++ s)]

theorem foldl_append_eq_strConcat (ds : List String) : ∀ full : String,
    ds.foldl (fun a b => a ++ b) full = full ++ strConcat ds := by
  induction ds with
  | nil =>
    intro full
    simp [strConcat, String.append_empty]
  | cons s ds ih =>
    intro full
    rw [List.foldl_cons, ih (full ++ s)]
    simp [strConcat, String.append_assoc]

theorem prefixList_length (ds : List String) : ∀ full : String,
    (prefixList full ds).length = ds.length := by
  induction ds with
  | nil => intro full; rfl
  | cons s ds ih =>
    intro full
    rw [prefixList, List.length_cons, ih]
    rfl

theorem yield_deltas_no_sources (ds : List String) (src : Option (List Chunk))
    (hsrc : sourcesTruthy src = false) :
    yield_deltas { response := ds.map Delta.str, sources := src } =
      (prefixList "" ds ++ [strConcat ds], none) := by
  have hfold := foldl_append_eq_strConcat ds ""
  rw [String.empty_append] at hfold
  simp [yield_deltas, streamLoop_str ds "", hsrc, hfold]

theorem chainExt_prefixList (ds : List String) : ∀ full : String,
    List.Chain' (fun a b => ∃ t, b = a ++ t)
      (prefixList full ds ++ [ds.foldl (fun a b => a ++ b) full]) := by
  induction ds with
  | nil =>
    intro full
    simp [prefixList]
  | cons s ds ih =>
    intro full
    rw [prefixList, List.cons_append, List.foldl_cons]
    refine List.chain'_cons'.mpr ⟨?_, ih (full ++ s)⟩
    intro h hh
    cases ds with
    | nil =>
      simp only [prefixList, List.foldl_nil, List.nil_append,
        List.head?_cons, Option.mem_def, Option.some.injEq] at hh
      subst hh
      exact ⟨"", (String.append_empty _).symm⟩
    | cons s2 ds2 =>
      simp only [prefixList, List.cons_append, List.head?_cons,
        Option.mem_def, Option.some.injEq] at hh
      subst hh
      exact ⟨s2, by rw [String.append_assoc]⟩

/-! ## Claim theorems -/

/-- C9 (confirmed): for every chunk list, curate_sources returns exactly
one Source per distinct (file, page, text) triple derived from the
chunks (dash-substituted when metadata or a key is absent): its length
is the number of distinct triples, it is a duplicate-free sublist of the
derived triples containing each of them, and its elements are ordered by
first occurrence in the input. -/
theorem curate_sources_correct (cs : List Chunk) :
    (Source.curate_sources cs).length = (cs.map chunkSource).toFinset.card ∧
    (Source.curate_sources cs).Sublist (cs.map chunkSource) ∧
    (Source.curate_sources cs).Nodup ∧
    (∀ s : Source, s ∈ Source.curate_sources cs ↔ s ∈ cs.map chunkSource) ∧
    (Source.curate_sources cs).Pairwise
      (fun a b =>
        (cs.map chunkSource).indexOf a < (cs.map chunkSource).indexOf b) := by
  rw [curate_sources_eq]
  refine ⟨?_, keepFirstByW_sublist id _, ?_, ?_,
    pairwise_indexOf_keepFirstByW id _⟩
  · rw [length_keepFirstByW]
    simp [List.map_id]
  · have h := nodup_map_keepFirstByW id (cs.map chunkSource)
    simpa [List.map_id] using h
  · intro s
    constructor
    · exact fun h => mem_of_mem_keepFirstByW h
    · intro h
      obtain ⟨y, hy, hky⟩ := keys_keepFirstByW id (cs.map chunkSource) s h
      have hys : y = s := hky
      rw [← hys]
      exact hy

/-- C2 (corrected): when the chunk list is empty or absent, the
aggregator yields one prefix per delta and then one extra final element
equal to the full concatenation (the unconditional final yield of line
117), so the element count is the delta count plus one, not equal to it;
no citation block is appended. -/
theorem yield_deltas_count_no_sources (ds : List String) :
    yield_deltas { response := ds.map Delta.str, sources := none } =
      (prefixList "" ds ++ [strConcat ds], none) ∧
    yield_deltas { response := ds.map Delta.str, sources := some [] } =
      (prefixList "" ds ++ [strConcat ds], none) ∧
    (yield_deltas { response := ds.map Delta.str, sources := none }).1.length =
      ds.length + 1 := by
  refine ⟨yield_deltas_no_sources ds none rfl,
    yield_deltas_no_sources ds (some []) rfl, ?_⟩
  rw [yield_deltas_no_sources ds none rfl]
  simp [prefixList_length]

/-- C2 counterexample: with one delta and an empty chunk list the
aggregator yields two elements, not one element per delta. -/
theorem yield_deltas_count_cex :
    (yield_deltas { response := [Delta.str "a"], sources := some [] }).1.length ≠ 1 := by
  decide

/-- C8 (corrected): every yielded element is a prefix of the next one
(not always strictly: an empty delta or the duplicated unconditional
final yield produce equal neighbours), and the final plain-text element
with no sources equals the concatenation of all deltas. -/
theorem yield_deltas_prefix_chain (ds : List String) :
    List.Chain' (fun a b => ∃ t, b = a ++ t)
      (yield_deltas { response := ds.map Delta.str, sources := none }).1 ∧
    (yield_deltas { response := ds.map Delta.str, sources := none }).1.getLast? =
      some (strConcat ds) := by
  rw [yield_deltas_no_sources ds none rfl]
  constructor
  · have h := chainExt_prefixList ds ""
    have hfold := foldl_append_eq_strConcat ds ""
    rw [String.empty_append] at hfold
    rw [hfold] at h
    exact h
  · simp

/-- C8 counterexample: with the single delta list containing one "a" and
no sources, the output is two equal elements, so the second element is
not a strict extension of the first even though it is not a
citation-augmented element. -/
theorem yield_deltas_strict_cex :
    (yield_deltas { response := [Delta.str "a"], sources := none }).1 =
      ["a", "a"] ∧
    ¬ List.Chain' (fun a b => (∃ t, b = a ++ t) ∧ a ≠ b)
      (yield_deltas { response := [Delta.str "a"], sources := none }).1 := by
  refine ⟨rfl, ?_⟩
  intro h
  rw [show (yield_deltas { response := [Delta.str "a"], sources := none }).1 =
    ["a", "a"] from rfl] at h
  exact (List.chain'_cons.mp h).1.2 rfl

/-! ## Lemmas: the citation block -/

theorem sourcesLoop_eq (l : List (Nat × Source)) :
    ∀ (used : List String) (text : String),
    sourcesLoop l used text = text ++
      strConcat ((keepFirstByFrom (fun p => citationKey p.2) used l).map
        citationLine) := by
  induction l with
  | nil =>
    intro used text
    simp [sourcesLoop, keepFirstByFrom, strConcat, String.append_empty]
  | cons p rest ih =>
    intro used text
    rw [sourcesLoop, keepFirstByFrom]
    by_cases h : citationKey p.2 ∈ used
    · rw [if_pos h, if_pos h, ih]
    · rw [if_neg h, if_neg h, ih, List.map_cons]
      have hs : strConcat (citationLine p ::
          (keepFirstByFrom (fun q => citationKey q.2)
            (citationKey p.2 :: used) rest).map citationLine) =
          citationLine p ++
            strConcat ((keepFirstByFrom (fun q => citationKey q.2)
              (citationKey p.2 :: used) rest).map citationLine) := by
        rw [strConcat]
      rw [hs, String.append_assoc]

theorem sourcesText_eq (cur : List Source) :
    sourcesText cur = "\n\n\n" ++
      strConcat ((keepFirstByW (fun p => citationKey p.2)
        (List.enumFrom 1 cur)).map citationLine) := by
  rw [sourcesText, sourcesLoop_eq]
  have h : keepFirstByFrom (fun p : Nat × Source => citationKey p.2) []
      (List.enumFrom 1 cur) =
      keepFirstByW (fun p : Nat × Source => citationKey p.2)
        (List.enumFrom 1 cur) := keepFirstBy_eq_W _ _
  rw [h]

theorem fst_ge_of_mem_enumFrom {α : Type} (l : List α) :
    ∀ (n : Nat) (p : Nat × α), p ∈ List.enumFrom n l → n ≤ p.1 := by
  induction l with
  | nil => simp
  | cons a l ih =>
    intro n p hp
    rw [List.enumFrom] at hp
    rcases List.mem_cons.mp hp with rfl | hp'
    · exact le_refl n
    · exact Nat.le_of_succ_le (ih (n + 1) p hp')

theorem pairwise_fst_enumFrom {α : Type} (l : List α) :
    ∀ n : Nat, (List.enumFrom n l).Pairwise (fun a b => a.1 < b.1) := by
  induction l with
  | nil => simp
  | cons a l ih =>
    intro n
    rw [List.enumFrom]
    refine List.pairwise_cons.mpr ⟨?_, ih (n + 1)⟩
    intro b hb
    exact Nat.lt_of_succ_le (fst_ge_of_mem_enumFrom l (n + 1) b hb)

theorem yield_deltas_with_sources (ds : List String) (c : Chunk)
    (cs : List Chunk) :
    yield_deltas { response := ds.map Delta.str, sources := some (c :: cs) } =
      (prefixList "" ds ++ [strConcat ds ++ SOURCES_SEPARATOR ++
        sourcesText (Source.curate_sources (c :: cs))], none) := by
  have hfold := foldl_append_eq_strConcat ds ""
  rw [String.empty_append] at hfold
  simp [yield_deltas, streamLoop_str ds "", sourcesTruthy, hfold]

/-- C5 (code bug): ui.py never imports the name `ChatResponse`, so the
branch meant to consume a structured delta raises `NameError` instead of
appending the delta text: on a stream holding one structured delta
nothing is yielded and the error propagates, while the same text as a
plain-string delta is aggregated normally. -/
theorem yield_deltas_structured_raises :
    yield_deltas { response := [Delta.structured (some "x")], sources := none } =
      ([], some PyErr.nameError) ∧
    yield_deltas { response := [Delta.str "x"], sources := none } =
      (["x", "x"], none) := by
  exact ⟨rfl, rfl⟩

/-- C6 (corrected): the citation block contains one line per distinct
(file, page) pair of the curated sources, in first-seen order, but each
line is numbered by the position of its first occurrence in the curated
list (so after a dropped duplicate the indices skip) and carries a
trailing space and blank line, rather than consecutive indices.  Stated
for an arbitrary delta stream and non-empty chunk list. -/
theorem citation_block_structure (ds : List String) (c : Chunk)
    (cs : List Chunk) :
    (yield_deltas { response := ds.map Delta.str, sources := some (c :: cs) }).1 =
      prefixList "" ds ++ [strConcat ds ++ SOURCES_SEPARATOR ++
        sourcesText (Source.curate_sources (c :: cs))] ∧
    sourcesText (Source.curate_sources (c :: cs)) = "\n\n\n" ++
      strConcat ((keepFirstByW (fun p => citationKey p.2)
        (List.enumFrom 1 (Source.curate_sources (c :: cs)))).map
        citationLine) ∧
    ((keepFirstByW (fun p => citationKey p.2)
        (List.enumFrom 1 (Source.curate_sources (c :: cs)))).map
      (fun p => citationKey p.2)).Nodup ∧
    (keepFirstByW (fun p => citationKey p.2)
        (List.enumFrom 1 (Source.curate_sources (c :: cs)))).Sublist
      (List.enumFrom 1 (Source.curate_sources (c :: cs))) ∧
    ((keepFirstByW (fun p => citationKey p.2)
        (List.enumFrom 1 (Source.curate_sources (c :: cs)))).map
      (fun p => citationKey p.2)).toFinset =
      ((List.enumFrom 1 (Source.curate_sources (c :: cs))).map
        (fun p => citationKey p.2)).toFinset ∧
    (keepFirstByW (fun p => citationKey p.2)
        (List.enumFrom 1 (Source.curate_sources (c :: cs)))).Pairwise
      (fun a b => a.1 < b.1) := by
  refine ⟨by rw [yield_deltas_with_sources], sourcesText_eq _, ?_, ?_, ?_, ?_⟩
  · exact nodup_map_keepFirstByW _ _
  · exact keepFirstByW_sublist _ _
  · exact toFinset_map_keys_keepFirstByW _ _
  · exact List.Pairwise.sublist (keepFirstByW_sublist _ _)
      (pairwise_fst_enumFrom _ 1)

/-- C6 counterexample: three chunks whose curated sources are two texts
of file f page p and one of file g page q produce the citation lines
numbered 1 and 3 — the second emitted line is not numbered 2 as
consecutive numbering would demand. -/
theorem citation_index_cex :
    (yield_deltas
        { response := [Delta.str "a"],
          sources := some [chunkC6a, chunkC6b, chunkC6c] }).1 =
      ["a", "a" ++ SOURCES_SEPARATOR ++
        "\n\n\n1. f (page p) \n\n3. g (page q) \n\n"] ∧
    ("\n\n\n1. f (page p) \n\n3. g (page q) \n\n" : String) ≠
      "\n\n\n1. f (page p) \n\n2. g (page q) \n\n" := by
  exact ⟨rfl, by decide⟩

/-- C7 (corrected): the generation result is handed to json.loads
unchecked, so a JSON array of strings is returned in order without
deduplication and non-JSON input raises to the caller, but there is no
validation that the value is an array of strings — any well-formed JSON
value is accepted. -/
theorem extract_questions_json :
    extract_questions (fun r => r) "[\"a?\",\"b?\"]" =
      .ok (Json.arr [Json.str "a?", Json.str "b?"]) ∧
    extract_questions (fun r => r) "not json" = .error PyErr.jsonError ∧
    extract_questions (fun r => r) "[\"a?\",\"a?\"]" =
      .ok (Json.arr [Json.str "a?", Json.str "a?"]) := by
  exact ⟨rfl, rfl, rfl⟩

/-- C7 counterexample: the result "[1, 2]" is not a JSON array of
strings, yet extraction returns it successfully instead of failing
hard. -/
theorem extract_questions_nonstring_cex :
    extract_questions (fun r => r) "[1, 2]" =
      .ok (Json.arr [Json.num 1, Json.num 2]) ∧
    allStrings [Json.num 1, Json.num 2] = none := by
  exact ⟨rfl, rfl⟩

/-! ## Lemmas: the answering loop -/

theorem answerLoop_abort (answerOf : Json → Except PyErr (List String))
    (f : Json → List String) (q0 : Json) (post : List Json) (e : PyErr)
    (hfail : answerOf q0 = .error e) :
    ∀ (pre : List Json) (acc : List (Json × List String)),
      (∀ q ∈ pre, answerOf q = .ok (f q)) →
      answerLoop answerOf (pre ++ q0 :: post) acc =
        (acc ++ pre.map (fun q => (q, f q)), some e) := by
  intro pre
  induction pre with
  | nil =>
    intro acc _
    simp [answerLoop, hfail]
  | cons q pre ih =>
    intro acc hpre
    rw [List.cons_append, answerLoop, hpre q (List.mem_cons_self q pre)]
    show answerLoop answerOf (pre ++ q0 :: post) (acc ++ [(q, f q)]) =
      (acc ++ List.map (fun r => (r, f r)) (q :: pre), some e)
    rw [ih (acc ++ [(q, f q)]) (fun r hr => hpre r (List.mem_cons_of_mem q hr))]
    simp

/-- C1 (corrected): if any single question's generation call fails, the
whole batch aborts and the error propagates, but the session transcript
afterwards holds exactly the pairs answered earlier in the same run: the
prior transcript is discarded when the run starts, while the partial
transcript of the aborted run is retained rather than discarded. -/
theorem answer_questionnaire_abort
    (answerOf : Json → Except PyErr (List String)) (st : UiState)
    (pre : List Json) (q0 : Json) (post : List Json)
    (f : Json → List String) (e : PyErr)
    (hq : st.questions = Json.arr (pre ++ q0 :: post))
    (hpre : ∀ q ∈ pre, answerOf q = .ok (f q))
    (hfail : answerOf q0 = .error e) :
    answer_questionnaire answerOf st =
      (.error e, { st with answers := pre.map (fun q => (q, f q)) }) := by
  rw [answer_questionnaire, hq]
  simp only [pyIter]
  rw [answerLoop_abort answerOf f q0 post e hfail pre [] hpre]
  simp

/-- C1 witness: applying the abort theorem at a concrete two-question
state whose second call fails. -/
theorem answer_questionnaire_abort_witness :
    answer_questionnaire ansOfC1 stC1 = (.error PyErr.typeError,
      { stC1 with answers := [(Json.str "q1", ["a1"])] }) := by
  have h := answer_questionnaire_abort ansOfC1 stC1 [Json.str "q1"]
    (Json.str "q2") [] (fun _ => ["a1"]) PyErr.typeError rfl
    (by
      intro q hq
      rw [List.mem_singleton] at hq
      subst hq
      rfl) rfl
  simpa using h

/-- C1 counterexample: with the first question answered and the second
failing, the session transcript afterwards is not empty — pairs already
produced in the run are kept, contradicting the claim that they are
discarded. -/
theorem answer_questionnaire_retained_cex :
    (answer_questionnaire ansOfC1 stC1).1 = .error PyErr.typeError ∧
    (answer_questionnaire ansOfC1 stC1).2.answers ≠ [] := by
  refine ⟨rfl, ?_⟩
  rw [show (answer_questionnaire ansOfC1 stC1).2.answers =
    [(Json.str "q1", ["a1"])] from rfl]
  exact List.cons_ne_nil _ _

/-- C3 (corrected): a successful extraction run replaces the question
list with the parsed value and leaves the stored transcript untouched:
the (question, answer) list keeps whatever the previous answering run
stored instead of being reset to empty. -/
theorem process_upload_keeps_answers (completionOf pdfText : String → String)
    (file : FileU) (st : UiState) (qs : Json) (out : String)
    (hpdf : pyEndsWith file.name ".pdf" = true)
    (hparse : json_loads (completionOf (pdfText file.name)) = .ok qs)
    (hjoin : pyJoinSep "\n" qs = .ok out) :
    process_upload completionOf pdfText file st =
      (.ok out, { st with questions := qs }) ∧
    ({ st with questions := qs } : UiState).answers = st.answers := by
  refine ⟨?_, rfl⟩
  rw [process_upload]
  simp [parse_pdf, extract_questions, hpdf, hparse, hjoin]

/-- C3 witness: applying the extraction theorem at a concrete state with
a non-empty prior transcript. -/
theorem process_upload_keeps_answers_witness :
    process_upload cOfC3 pdfOfC3 fileC3 stC3 =
      (.ok "x?", { stC3 with questions := Json.arr [Json.str "x?"] }) ∧
    ({ stC3 with questions := Json.arr [Json.str "x?"] } : UiState).answers =
      stC3.answers := by
  exact process_upload_keeps_answers cOfC3 pdfOfC3 fileC3 stC3
    (Json.arr [Json.str "x?"]) "x?" rfl rfl rfl

/-- C3 counterexample: after a successful extraction run the stored
transcript is not the empty pending set — the previous run's pairs are
still there. -/
theorem process_upload_answers_cex :
    (process_upload cOfC3 pdfOfC3 fileC3 stC3).1 = .ok "x?" ∧
    (process_upload cOfC3 pdfOfC3 fileC3 stC3).2.answers ≠ [] := by
  refine ⟨rfl, ?_⟩
  rw [show (process_upload cOfC3 pdfOfC3 fileC3 stC3).2.answers =
    [(Json.str "q", ["a"])] from rfl]
  exact List.cons_ne_nil _ _

/-- C4 (corrected): both delete handlers return components that reset
the displayed selection (textbox "All files", both buttons disabled) but
neither assigns `self._selected_filename`, which keeps its value after
the call; only the separate deselect handler clears that field. -/
theorem delete_ops_selection (st : UiState) (corpus : List IngestedDoc) :
    (delete_selected_file st corpus).2.selected_filename =
      st.selected_filename ∧
    (delete_all_files st corpus).2.selected_filename =
      st.selected_filename ∧
    (delete_all_files st corpus).1.2.textbox = "All files" ∧
    (delete_all_files st corpus).1.2.delete_btn_interactive = false ∧
    (delete_all_files st corpus).1.2.deselect_btn_interactive = false ∧
    ((delete_selected_file st corpus).1.2.all (fun o =>
      o.textbox == "All files" && !o.delete_btn_interactive &&
        !o.deselect_btn_interactive)) = true ∧
    (deselect_selected_file st).2.selected_filename = none := by
  refine ⟨?_, rfl, rfl, rfl, rfl, ?_, rfl⟩
  · rw [delete_selected_file]
    rcases delSelLoop st.selected_filename corpus corpus [] with
      ⟨c', calls, (_ | e)⟩
    · rfl
    · rfl
  · rw [delete_selected_file]
    rcases delSelLoop st.selected_filename corpus corpus [] with
      ⟨c', calls, (_ | e)⟩
    · rfl
    · rfl

/-- C4 counterexample: after deleting all files (or the selected file)
in a session whose selection is "f", the stored selected filename is
still "f", not the cleared value. -/
theorem delete_selection_cex :
    (delete_all_files stC4 []).2.selected_filename ≠ none ∧
    (delete_selected_file stC4 []).2.selected_filename ≠ none := by
  constructor
  · rw [show (delete_all_files stC4 []).2.selected_filename =
      some "f" from rfl]
    exact Option.some_ne_none _
  · rw [show (delete_selected_file stC4 []).2.selected_filename =
      some "f" from rfl]
    exact Option.some_ne_none _

/-! ## Lemmas: missing file_name key in metadata -/

theorem uploadScan_raises (files : List String) (bad : IngestedDoc) (m : Meta)
    (hmeta : bad.doc_metadata = some m) (hne : m.isEmpty = false)
    (hmiss : m.lookup "file_name" = none) (post : List IngestedDoc) :
    ∀ pre : List IngestedDoc,
      uploadScan files (pre ++ bad :: post) = .error PyErr.keyError := by
  intro pre
  induction pre with
  | nil =>
    rw [List.nil_append, uploadScan, hmeta]
    simp [hne, hmiss]
  | cons d pre ih =>
    rw [List.cons_append, uploadScan]
    cases hd : d.doc_metadata with
    | none => exact ih
    | some md =>
      by_cases hemp : md.isEmpty
      · simp [hemp, ih]
      · cases hl : md.lookup "file_name" with
        | none => simp [hemp, hl]
        | some v =>
          by_cases hv : v ∈ files
          · simp [hemp, hl, hv, ih]
          · simp [hemp, hl, hv, ih]

theorem delSelLoop_cons (sel : Option String) (d : IngestedDoc)
    (rest corpus : List IngestedDoc) (calls : List Nat) :
    delSelLoop sel (d :: rest) corpus calls =
      if raisesKeyError d then (corpus, calls, some PyErr.keyError)
      else if selMatches sel d then
        delSelLoop sel rest (corpus.filter (fun x => x.doc_id ≠ d.doc_id))
          (calls ++ [d.doc_id])
      else delSelLoop sel rest corpus calls := by
  rw [delSelLoop]
  cases hd : d.doc_metadata with
  | none => simp [raisesKeyError, selMatches, hd]
  | some md =>
    by_cases hemp : md.isEmpty = true
    · simp [raisesKeyError, selMatches, hd, hemp]
    · cases hl : md.lookup "file_name" with
      | none => simp [raisesKeyError, selMatches, hd, hemp, hl]
      | some v => simp [raisesKeyError, selMatches, hd, hemp, hl]

theorem delSelLoop_aborts (sel : Option String) (bad : IngestedDoc) (m : Meta)
    (hmeta : bad.doc_metadata = some m) (hne : m.isEmpty = false)
    (hmiss : m.lookup "file_name" = none) (post : List IngestedDoc) :
    ∀ pre : List IngestedDoc, (∀ d ∈ pre, raisesKeyError d = false) →
      ∀ (corpus : List IngestedDoc) (calls : List Nat),
      delSelLoop sel (pre ++ bad :: post) corpus calls =
        ((pre.filter (selMatches sel)).foldl
          (fun c d => c.filter (fun x => x.doc_id ≠ d.doc_id)) corpus,
         calls ++ (pre.filter (selMatches sel)).map (fun d => d.doc_id),
         some PyErr.keyError) := by
  intro pre
  induction pre with
  | nil =>
    intro _ corpus calls
    rw [List.nil_append, delSelLoop, hmeta]
    simp [hne, hmiss]
  | cons d pre ih =>
    intro hgood corpus calls
    have hrest : ∀ r ∈ pre, raisesKeyError r = false :=
      fun r hr => hgood r (List.mem_cons_of_mem d hr)
    have hdn : raisesKeyError d = false := hgood d (List.mem_cons_self d pre)
    rw [List.cons_append, delSelLoop_cons, hdn]
    by_cases hm : selMatches sel d = true
    · simp only [Bool.false_eq_true, if_false, hm, if_true]
      rw [ih hrest (corpus.filter (fun x => x.doc_id ≠ d.doc_id))
        (calls ++ [d.doc_id])]
      rw [List.filter_cons_of_pos hm, List.foldl_cons, List.map_cons]
      simp [List.append_assoc]
    · simp only [Bool.false_eq_true, if_false, hm]
      rw [ih hrest corpus calls, List.filter_cons_of_neg (by simp [hm])]

theorem list_ingested_files_placeholder (corpus : List IngestedDoc)
    (bad : IngestedDoc) (m : Meta) (hmem : bad ∈ corpus)
    (hmeta : bad.doc_metadata = some m)
    (hmiss : m.lookup "file_name" = none) :
    ["[FILE NAME MISSING]"] ∈ list_ingested_files corpus := by
  rw [list_ingested_files]
  apply List.mem_map.mpr
  refine ⟨"[FILE NAME MISSING]", ?_, rfl⟩
  rw [keepFirstBy_eq_W]
  have hmem' : "[FILE NAME MISSING]" ∈ corpus.filterMap (fun d =>
      match d.doc_metadata with
      | none => none
      | some mm => some (dictGetD mm "file_name" "[FILE NAME MISSING]")) := by
    apply List.mem_filterMap.mpr
    refine ⟨bad, hmem, ?_⟩
    rw [hmeta]
    simp [dictGetD, hmiss]
  obtain ⟨y, hy, hky⟩ := keys_keepFirstByW id _ _ hmem'
  have hys : y = "[FILE NAME MISSING]" := hky
  subst hys
  exact hy

/-- C10 (confirmed): when the corpus holds a document whose metadata is
non-empty but lacks the file_name key, the upload replace-scan raises a
KeyError before issuing any delete or ingest call and leaves the corpus
unchanged; the selected-file delete raises the same error after issuing
exactly the delete calls for matching documents that precede the bad
one; and the file listing tolerates the document, substituting the
placeholder row. -/
theorem metadata_missing_key_behavior
    (newDocs : List String → List IngestedDoc) (files : List String)
    (st : UiState) (pre post : List IngestedDoc) (bad : IngestedDoc)
    (m : Meta) (hmeta : bad.doc_metadata = some m) (hne : m.isEmpty = false)
    (hmiss : m.lookup "file_name" = none)
    (hgood : ∀ d ∈ pre, raisesKeyError d = false) :
    upload_file newDocs files (pre ++ bad :: post) =
      { corpus := pre ++ bad :: post, deleteCalls := [], ingestCalls := [],
        err := some PyErr.keyError } ∧
    (delete_selected_file st (pre ++ bad :: post)).1.1.err =
      some PyErr.keyError ∧
    (delete_selected_file st (pre ++ bad :: post)).1.1.deleteCalls =
      (pre.filter (selMatches st.selected_filename)).map (fun d => d.doc_id) ∧
    (delete_selected_file st (pre ++ bad :: post)).1.1.corpus =
      (pre.filter (selMatches st.selected_filename)).foldl
        (fun c d => c.filter (fun x => x.doc_id ≠ d.doc_id))
        (pre ++ bad :: post) ∧
    (delete_selected_file st (pre ++ bad :: post)).1.2 = none ∧
    ["[FILE NAME MISSING]"] ∈ list_ingested_files (pre ++ bad :: post) := by
  have hup : upload_file newDocs files (pre ++ bad :: post) =
      { corpus := pre ++ bad :: post, deleteCalls := [], ingestCalls := [],
        err := some PyErr.keyError } := by
    rw [upload_file, uploadScan_raises files bad m hmeta hne hmiss post pre]
  have hdel := delSelLoop_aborts st.selected_filename bad m hmeta hne hmiss
    post pre hgood (pre ++ bad :: post) []
  have hds : delete_selected_file st (pre ++ bad :: post) =
      (({ corpus := (pre.filter (selMatches st.selected_filename)).foldl
            (fun c d => c.filter (fun x => x.doc_id ≠ d.doc_id))
            (pre ++ bad :: post),
          deleteCalls := [] ++ (pre.filter
            (selMatches st.selected_filename)).map (fun d => d.doc_id),
          ingestCalls := [], err := some PyErr.keyError }, none), st) := by
    rw [delete_selected_file, hdel]
  refine ⟨hup, ?_, ?_, ?_, ?_, ?_⟩
  · rw [hds]
  · rw [hds]
    simp
  · rw [hds]
  · rw [hds]
  · exact list_ingested_files_placeholder _ bad m
      (by simp) hmeta hmiss

/-- C10 witness: a concrete corpus of one well-formed document matching
the selection followed by one document whose metadata lacks file_name:
upload aborts with no calls, the selected delete deletes only the
preceding match and then aborts, and the listing shows the
placeholder. -/
theorem metadata_missing_key_behavior_witness :
    upload_file (fun _ => []) ["f"] [docGood, docBad] =
      { corpus := [docGood, docBad], deleteCalls := [], ingestCalls := [],
        err := some PyErr.keyError } ∧
    (delete_selected_file stC10 [docGood, docBad]).1.1.err =
      some PyErr.keyError ∧
    (delete_selected_file stC10 [docGood, docBad]).1.1.deleteCalls =
      ([docGood].filter (selMatches stC10.selected_filename)).map
        (fun d => d.doc_id) ∧
    (delete_selected_file stC10 [docGood, docBad]).1.1.corpus =
      ([docGood].filter (selMatches stC10.selected_filename)).foldl
        (fun c d => c.filter (fun x => x.doc_id ≠ d.doc_id))
        [docGood, docBad] ∧
    (delete_selected_file stC10 [docGood, docBad]).1.2 = none ∧
    ["[FILE NAME MISSING]"] ∈ list_ingested_files [docGood, docBad] := by
  exact metadata_missing_key_behavior (fun _ => []) ["f"] stC10 [docGood] []
    docBad [("page_label", "1")] rfl rfl rfl
    (by
      intro d hd
      rw [List.mem_singleton] at hd
      subst hd
      rfl)
